import Mathlib

/-!
# Verification of `trlx/pipeline/offline_pipeline.py`

A shallow embedding of the dialogue tokenization, middle-truncation and
store/collation logic of `src/trlx/pipeline/offline_pipeline.py`, together
with theorems settling the frozen claims about that module.

Conventions of the embedding:
* token ids are modelled as `Int` (the label ignore sentinel is `-100`);
* Python tuples of tokens become `List Int`, masks become `List Bool`;
* functions that can raise return `Except`; where a claim is about the
  state of a mutated argument at the time of a raise, the error value also
  carries the message records as they stand at the raise point;
* `logging.warn` calls are modelled by returning the warning strings.
-/

set_option linter.unusedVariables false
set_option linter.unnecessarySeqFocus false

deriving instance DecidableEq for Except

/-- Python's `str.endswith`, stated over the character list so that it
reduces in the kernel (`String.endsWith` agrees but is not reducible). -/
def pyEndsWith (s suffix : String) : Bool := suffix.data.isSuffixOf s.data

/-- Python's `str.startswith`, stated over the character list so that it
reduces in the kernel. -/
def pyStartsWith (s pre : String) : Bool := pre.data.isPrefixOf s.data

/-- Embeds the `DialogMessage` dataclass: one dialogue turn. -/
structure DialogMessage where
  is_output : Bool
  tokens : List Int
deriving DecidableEq, Repr

/-- Embeds the `PromptMessage` dataclass: a single-turn prompt with mask. -/
structure PromptMessage where
  tokens : List Int
  mask : List Bool
deriving DecidableEq, Repr

/-- First index of `target` in `l`, or `none`: the value computed for each
marker by the left-to-right scan in `middle_truncate` (lines 72-79), and by
`tuple.index` in the trimming loop (line 98). -/
def firstIdx (target : Int) : List Int → Option Nat
  | [] => none
  | t :: rest => if t = target then some 0 else (firstIdx target rest).map (· + 1)

theorem firstIdx_lt_length {target : Int} {l : List Int} {i : Nat}
    (h : firstIdx target l = some i) : i < l.length := by
  induction l generalizing i with
  | nil => simp [firstIdx] at h
  | cons t rest ih =>
    simp only [firstIdx] at h
    split at h
    · injection h with h
      subst h
      simp only [List.length_cons]
      omega
    · match hr : firstIdx target rest with
      | none => simp [hr] at h
      | some j =>
        simp only [hr, Option.map_some'] at h
        injection h with h
        have := ih hr
        simp only [List.length_cons]
        omega

theorem firstIdx_eq_none_iff {target : Int} {l : List Int} :
    firstIdx target l = none ↔ target ∉ l := by
  induction l with
  | nil => simp [firstIdx]
  | cons t rest ih =>
    simp only [firstIdx, List.mem_cons]
    split
    · simp_all
    · rename_i ht
      constructor
      · intro h
        match hr : firstIdx target rest with
        | some j => simp [hr] at h
        | none =>
          have := ih.mp hr
          rintro (rfl | hmem)
          · exact ht rfl
          · exact this hmem
      · intro h
        have : target ∉ rest := fun hm => h (Or.inr hm)
        simp [ih.mpr this]

/-- The token at the first index is the target. -/
theorem firstIdx_getElem {target : Int} {l : List Int} {i : Nat}
    (h : firstIdx target l = some i) :
    ∃ hi : i < l.length, l[i] = target := by
  induction l generalizing i with
  | nil => simp [firstIdx] at h
  | cons t rest ih =>
    simp only [firstIdx] at h
    split at h
    · rename_i ht
      injection h with h
      subst h
      exact ⟨by simp, by simpa using ht⟩
    · match hr : firstIdx target rest with
      | none => simp [hr] at h
      | some j =>
        simp only [hr, Option.map_some'] at h
        obtain ⟨hj, hget⟩ := ih hr
        injection h with h
        subst h
        refine ⟨by simp only [List.length_cons]; omega, ?_⟩
        simpa using hget

/-- No occurrence of the target strictly before the first index. -/
theorem firstIdx_not_mem_take {target : Int} {l : List Int} {i : Nat}
    (h : firstIdx target l = some i) : target ∉ l.take i := by
  induction l generalizing i with
  | nil => simp
  | cons t rest ih =>
    simp only [firstIdx] at h
    split at h
    · injection h with h
      subst h
      simp
    · rename_i ht
      match hr : firstIdx target rest with
      | none => simp [hr] at h
      | some j =>
        simp only [hr, Option.map_some'] at h
        injection h with h
        subst h
        simp only [List.take_succ_cons, List.mem_cons]
        rintro (rfl | hmem)
        · exact ht rfl
        · exact ih hr hmem

theorem firstIdx_append {target : Int} (a b : List Int) :
    firstIdx target (a ++ b) =
      match firstIdx target a with
      | some i => some i
      | none => (firstIdx target b).map (· + a.length) := by
  induction a with
  | nil =>
    simp only [List.nil_append, firstIdx, List.length_nil]
    cases firstIdx target b <;> simp
  | cons t rest ih =>
    by_cases ht : t = target
    · simp [firstIdx, ht]
    · simp only [List.cons_append, firstIdx, if_neg ht, List.append_eq]
      rw [ih]
      cases hr : firstIdx target rest with
      | some j => simp
      | none =>
        cases hb : firstIdx target b <;> simp [List.length_cons, Nat.add_assoc]

theorem firstIdx_of_not_mem {target : Int} {l : List Int} (h : target ∉ l) :
    firstIdx target l = none := firstIdx_eq_none_iff.mpr h

/-- One-pass scan accumulator state for the marker scan of `middle_truncate`
(lines 72-79): records the first occurrence index of each marker. The source
breaks out of the loop once both indices are set; since a set accumulator is
never overwritten, omitting the break does not change the result. -/
def scanMarkersGo (startId endId : Int) (i : Nat) (accS accE : Option Nat) :
    List Int → Option Nat × Option Nat
  | [] => (accS, accE)
  | t :: rest =>
    scanMarkersGo startId endId (i + 1)
      (if accS = none ∧ t = startId then some i else accS)
      (if accE = none ∧ t = endId then some i else accE) rest

/-- Embeds the marker scan of `middle_truncate` (lines 72-79): first
occurrence index of the start marker and of the end marker, each `none`
when the marker is absent (`-1` in the source). -/
def scanMarkers (tokens : List Int) (startId endId : Int) : Option Nat × Option Nat :=
  scanMarkersGo startId endId 0 none none tokens

theorem scanMarkersGo_spec (startId endId : Int) (l : List Int) :
    ∀ (i : Nat) (accS accE : Option Nat),
      scanMarkersGo startId endId i accS accE l =
        ((match accS with
          | some s => some s
          | none => (firstIdx startId l).map (· + i)),
         (match accE with
          | some e => some e
          | none => (firstIdx endId l).map (· + i))) := by
  induction l with
  | nil => intro i accS accE; cases accS <;> cases accE <;> simp [scanMarkersGo, firstIdx]
  | cons t rest ih =>
    intro i accS accE
    simp only [scanMarkersGo, ih]
    simp only [Prod.mk.injEq]
    constructor
    · cases accS with
      | some s => simp
      | none =>
        by_cases hs : t = startId
        · simp [hs, firstIdx]
        · simp only [firstIdx, if_neg hs]
          simp only [true_and, Option.map_map]
          rw [if_neg (by simp [hs])]
          cases firstIdx startId rest <;> simp [Function.comp] <;> omega
    · cases accE with
      | some e => simp
      | none =>
        by_cases he : t = endId
        · simp [he, firstIdx]
        · simp only [firstIdx, if_neg he]
          simp only [true_and, Option.map_map]
          rw [if_neg (by simp [he])]
          cases firstIdx endId rest <;> simp [Function.comp] <;> omega

/-- The scan computes the first occurrence index of each marker. -/
theorem scanMarkers_eq (tokens : List Int) (startId endId : Int) :
    scanMarkers tokens startId endId = (firstIdx startId tokens, firstIdx endId tokens) := by
  rw [scanMarkers, scanMarkersGo_spec]
  cases firstIdx startId tokens <;> cases firstIdx endId tokens <;> simp

/-- Embeds the separator-based trimming loop of `middle_truncate`
(lines 96-106), token component: while the segment is longer than the
budget, drop everything up to and including the first separator; when the
separator is absent, drop the whole segment and stop. -/
def trimLoop (sepId : Int) (budget : Nat) (mid : List Int) : List Int :=
  if h : mid.length ≤ budget then mid
  else
    match hf : firstIdx sepId mid with
    | some i => trimLoop sepId budget (mid.drop (i + 1))
    | none => []
termination_by mid.length
decreasing_by
  simp only [List.length_drop]
  have := firstIdx_lt_length hf
  omega

/-- Embeds the same loop for a `PromptMessage`, where the mask is sliced in
lockstep with the tokens (lines 96-106 with the `isinstance` branches). -/
def trimLoopPair (sepId : Int) (budget : Nat) (mid : List Int) (mask : List Bool) :
    List Int × List Bool :=
  if h : mid.length ≤ budget then (mid, mask)
  else
    match hf : firstIdx sepId mid with
    | some i => trimLoopPair sepId budget (mid.drop (i + 1)) (mask.drop (i + 1))
    | none => ([], [])
termination_by mid.length
decreasing_by
  simp only [List.length_drop]
  have := firstIdx_lt_length hf
  omega

theorem trimLoop_length_le (sepId : Int) (budget : Nat) (mid : List Int) :
    (trimLoop sepId budget mid).length ≤ budget := by
  suffices h : ∀ (n : Nat) (mid : List Int), mid.length = n →
      (trimLoop sepId budget mid).length ≤ budget from h mid.length mid rfl
  intro n
  induction n using Nat.strong_induction_on with
  | _ n ih =>
    intro mid hn
    rw [trimLoop]
    split
    · assumption
    · split
      · rename_i i hf
        have hi := firstIdx_lt_length hf
        exact ih (mid.drop (i + 1)).length (by simp only [List.length_drop]; omega) _ rfl
      · simp

theorem trimLoop_sublist (sepId : Int) (budget : Nat) (mid : List Int) :
    (trimLoop sepId budget mid).Sublist mid := by
  suffices h : ∀ (n : Nat) (mid : List Int), mid.length = n →
      (trimLoop sepId budget mid).Sublist mid from h mid.length mid rfl
  intro n
  induction n using Nat.strong_induction_on with
  | _ n ih =>
    intro mid hn
    rw [trimLoop]
    split
    · exact List.Sublist.refl mid
    · split
      · rename_i i hf
        have hi := firstIdx_lt_length hf
        exact ((ih (mid.drop (i + 1)).length (by simp only [List.length_drop]; omega) _
          rfl).trans (List.drop_sublist _ _))
      · exact List.nil_sublist mid

theorem trimLoopPair_fst (sepId : Int) (budget : Nat) (mid : List Int) (mask : List Bool) :
    (trimLoopPair sepId budget mid mask).1 = trimLoop sepId budget mid := by
  suffices h : ∀ (n : Nat) (mid : List Int) (mask : List Bool), mid.length = n →
      (trimLoopPair sepId budget mid mask).1 = trimLoop sepId budget mid from
    h mid.length mid mask rfl
  intro n
  induction n using Nat.strong_induction_on with
  | _ n ih =>
    intro mid mask hn
    rw [trimLoopPair, trimLoop]
    split
    · rfl
    · split
      · rename_i i hf
        have hi := firstIdx_lt_length hf
        exact ih (mid.drop (i + 1)).length (by simp only [List.length_drop]; omega) _ _ rfl
      · rfl

theorem trimLoopPair_length_eq (sepId : Int) (budget : Nat) (mid : List Int)
    (mask : List Bool) (hm : mask.length = mid.length) :
    (trimLoopPair sepId budget mid mask).2.length = (trimLoopPair sepId budget mid mask).1.length := by
  suffices h : ∀ (n : Nat) (mid : List Int) (mask : List Bool), mid.length = n →
      mask.length = mid.length →
      (trimLoopPair sepId budget mid mask).2.length =
        (trimLoopPair sepId budget mid mask).1.length from h mid.length mid mask rfl hm
  intro n
  induction n using Nat.strong_induction_on with
  | _ n ih =>
    intro mid mask hn hm
    rw [trimLoopPair]
    split
    · simpa using hm
    · split
      · rename_i i hf
        have hi := firstIdx_lt_length hf
        exact ih (mid.drop (i + 1)).length (by simp only [List.length_drop]; omega) _ _ rfl
          (by simp only [List.length_drop]; omega)
      · rfl

theorem trimLoopPair_snd_sublist (sepId : Int) (budget : Nat) (mid : List Int)
    (mask : List Bool) :
    (trimLoopPair sepId budget mid mask).2.Sublist mask := by
  suffices h : ∀ (n : Nat) (mid : List Int) (mask : List Bool), mid.length = n →
      (trimLoopPair sepId budget mid mask).2.Sublist mask from h mid.length mid mask rfl
  intro n
  induction n using Nat.strong_induction_on with
  | _ n ih =>
    intro mid mask hn
    rw [trimLoopPair]
    split
    · exact List.Sublist.refl mask
    · split
      · rename_i i hf
        have hi := firstIdx_lt_length hf
        exact ((ih (mid.drop (i + 1)).length (by simp only [List.length_drop]; omega) _ _
          rfl).trans (List.drop_sublist _ _))
      · exact List.nil_sublist mask

/-- Message of the `RuntimeError` raised at lines 89-91 of the source. -/
def budget_error_msg (maxLength promptNum outputNum : Nat) (middleMaxLen : Int) : String :=
  "please shorten the prompt or output, max_length: " ++ toString maxLength ++
    ", prompt_token_num: " ++ toString promptNum ++ ", output_token_num: " ++
    toString outputNum ++ ", middle_max_len: " ++ toString middleMaxLen

/-- Message passed to `logging.warn` at lines 81-82 of the source. -/
def marker_warning (startId endId : Int) (tokens : List Int) : String :=
  "cannot find start_char_token_id[" ++ toString startId ++ "] or end_char_token_id[" ++
    toString endId ++ "] in input_tokens[" ++ toString tokens ++ "]"

/-- Embeds the slice `tokenized[0].tokens[start_char_idx+1:end_char_idx]`
(line 84): the open middle segment strictly between the two marker indices. -/
def middle_segment (tokens : List Int) (si ei : Nat) : List Int :=
  (tokens.take ei).drop (si + 1)

/-- Embeds `middle_max_len = max_length - output_token_num -
(prompt_token_num - len(middle_token_part))` (line 87), an `int` that may be
negative. -/
def middle_budget (maxLength promptNum outputNum midLen : Nat) : Int :=
  (maxLength : Int) - (outputNum : Int) - ((promptNum : Int) - (midLen : Int))

/-- The marker indices `middle_truncate` actually uses: the scanned first
occurrences when both markers are present, else the fallback
`(0, len(tokens) - 1)` of line 83. For an empty prompt the source fallback is
`(0, -1)`; that path always takes the negative-budget raise before either
index is used in a slice, and on it the `Nat` clamp `0 - 1 = 0` produces the
same empty middle segment, the same budget and the same error, so the
embedding agrees with the source on every observable output. -/
def chosen_markers (tokens : List Int) (startId endId : Int) : Nat × Nat :=
  match scanMarkers tokens startId endId with
  | (some s, some e) => (s, e)
  | _ => (0, tokens.length - 1)

/-- Embeds lines 84-111 of `middle_truncate` for a `[prompt, output]`
`DialogMessage` pair, after the marker indices have been chosen: slice out
the middle segment, fail if the budget is negative (the error value carries
the records as they stand at the raise, i.e. unchanged, since the source's
only mutations at lines 111-113 come after the raise), otherwise trim the
(possibly reversed) middle down to the budget and reassemble the prompt. -/
def middle_truncate_dialog_core (p o : DialogMessage) (maxLength : Nat)
    (truncation_side : String) (sepId : Int) (si ei : Nat) :
    Except (String × List DialogMessage) (List DialogMessage) :=
  let middle := middle_segment p.tokens si ei
  let mml := middle_budget maxLength p.tokens.length o.tokens.length middle.length
  if mml < 0 then
    .error (budget_error_msg maxLength p.tokens.length o.tokens.length mml, [p, o])
  else
    let mid1 := if truncation_side = "middle-right" then middle.reverse else middle
    let mid2 := trimLoop sepId mml.toNat mid1
    let mid3 := if truncation_side = "middle-right" then mid2.reverse else mid2
    .ok [⟨p.is_output, p.tokens.take (si + 1) ++ mid3 ++ p.tokens.drop ei⟩, o]

/-- Result of a `middle_truncate` call: the warnings logged and either the
final message records (the source mutates `tokenized[0]` in place and
returns `None`) or the raised error message together with the records as
they stand at the raise. -/
structure MTResultD where
  warnings : List String
  result : Except (String × List DialogMessage) (List DialogMessage)
deriving Repr

/-- Embeds `middle_truncate` (lines 55-113) on the `DialogMessage` branch of
the `isinstance` dispatch: `tokenized[0]` on an empty list raises
`IndexError`, a list of length other than two fails the `assert`, a total
within `max_length` is a no-op, and otherwise the marker scan (with warn +
fallback) feeds `middle_truncate_dialog_core`. -/
def middle_truncate_dialog (tokenized : List DialogMessage) (maxLength : Nat)
    (truncation_side : String) (startId endId sepId : Int) : MTResultD :=
  match tokenized with
  | [p, o] =>
    if p.tokens.length + o.tokens.length > maxLength then
      let scanned := scanMarkers p.tokens startId endId
      let warns := if scanned.1 = none ∨ scanned.2 = none then
          [marker_warning startId endId p.tokens] else []
      let se := chosen_markers p.tokens startId endId
      ⟨warns, middle_truncate_dialog_core p o maxLength truncation_side sepId se.1 se.2⟩
    else ⟨[], .ok tokenized⟩
  | [] => ⟨[], .error ("IndexError: list index out of range", tokenized)⟩
  | _ => ⟨[], .error ("AssertionError: len(tokenized) == 2", tokenized)⟩

/-- Embeds lines 84-113 of `middle_truncate` for a single `PromptMessage`,
after the marker indices have been chosen; the mask is sliced, reversed,
trimmed and reassembled in lockstep with the tokens. The output token count
is `0` on this branch (line 66). -/
def middle_truncate_prompt_core (pm : PromptMessage) (maxLength : Nat)
    (truncation_side : String) (sepId : Int) (si ei : Nat) :
    Except (String × List PromptMessage) (List PromptMessage) :=
  let middle := middle_segment pm.tokens si ei
  let middleMask := (pm.mask.take ei).drop (si + 1)
  let mml := middle_budget maxLength pm.tokens.length 0 middle.length
  if mml < 0 then
    .error (budget_error_msg maxLength pm.tokens.length 0 mml, [pm])
  else
    let mid1 := if truncation_side = "middle-right" then middle.reverse else middle
    let mask1 := if truncation_side = "middle-right" then middleMask.reverse else middleMask
    let mm := trimLoopPair sepId mml.toNat mid1 mask1
    let mid3 := if truncation_side = "middle-right" then mm.1.reverse else mm.1
    let mask3 := if truncation_side = "middle-right" then mm.2.reverse else mm.2
    .ok [⟨pm.tokens.take (si + 1) ++ mid3 ++ pm.tokens.drop ei,
          pm.mask.take (si + 1) ++ mask3 ++ pm.mask.drop ei⟩]

/-- `middle_truncate` result on the `PromptMessage` branch. -/
structure MTResultP where
  warnings : List String
  result : Except (String × List PromptMessage) (List PromptMessage)
deriving Repr

/-- Embeds `middle_truncate` (lines 55-113) on the `PromptMessage` branch of
the `isinstance` dispatch (a single message, output token count `0`). -/
def middle_truncate_prompt (tokenized : List PromptMessage) (maxLength : Nat)
    (truncation_side : String) (startId endId sepId : Int) : MTResultP :=
  match tokenized with
  | [pm] =>
    if pm.tokens.length + 0 > maxLength then
      let scanned := scanMarkers pm.tokens startId endId
      let warns := if scanned.1 = none ∨ scanned.2 = none then
          [marker_warning startId endId pm.tokens] else []
      let se := chosen_markers pm.tokens startId endId
      ⟨warns, middle_truncate_prompt_core pm maxLength truncation_side sepId se.1 se.2⟩
    else ⟨[], .ok tokenized⟩
  | [] => ⟨[], .error ("IndexError: list index out of range", tokenized)⟩
  | _ => ⟨[], .error ("AssertionError: len(tokenized) == 1", tokenized)⟩

/-- Embeds `sum(map(lambda msg: len(msg.tokens), out))` (line 162): total
token count of a message list. -/
def sumLens (ms : List DialogMessage) : Nat := (ms.map fun m => m.tokens.length).sum

/-- Shape of a successful `middle_truncate_dialog_core` run: the prompt is
reassembled as preserved prefix ++ trimmed middle ++ preserved suffix, the
budget was nonnegative, the trimmed middle fits the budget and draws its
elements from the original middle segment. -/
theorem middle_truncate_dialog_core_ok {p o : DialogMessage} {maxLength : Nat}
    {side : String} {sepId : Int} {si ei : Nat} {res : List DialogMessage}
    (h : middle_truncate_dialog_core p o maxLength side sepId si ei = .ok res) :
    ∃ mid3 : List Int,
      res = [⟨p.is_output, p.tokens.take (si + 1) ++ mid3 ++ p.tokens.drop ei⟩, o] ∧
      0 ≤ middle_budget maxLength p.tokens.length o.tokens.length
          (middle_segment p.tokens si ei).length ∧
      mid3.length ≤ (middle_budget maxLength p.tokens.length o.tokens.length
          (middle_segment p.tokens si ei).length).toNat ∧
      ∀ x ∈ mid3, x ∈ middle_segment p.tokens si ei := by
  simp only [middle_truncate_dialog_core] at h
  split at h
  · simp at h
  · rename_i hneg
    rw [Except.ok.injEq] at h
    subst h
    refine ⟨_, rfl, by omega, ?_, ?_⟩
    · by_cases hside : side = "middle-right" <;>
        simp only [hside, if_true, if_false, if_pos, if_neg, List.length_reverse,
          reduceIte] <;>
        exact trimLoop_length_le _ _ _
    · intro x hx
      by_cases hside : side = "middle-right"
      · simp only [hside, reduceIte, List.mem_reverse] at hx
        have := (trimLoop_sublist sepId _ _).subset hx
        simpa using this
      · simp only [hside, reduceIte] at hx
        exact (trimLoop_sublist sepId _ _).subset hx

/-- A successful over-budget `middle_truncate_dialog_core` run keeps the
total token count within `max_length`. -/
theorem middle_truncate_dialog_core_ok_sum {p o : DialogMessage} {maxLength : Nat}
    {side : String} {sepId : Int} {si ei : Nat} {res : List DialogMessage}
    (hover : maxLength < p.tokens.length + o.tokens.length)
    (h : middle_truncate_dialog_core p o maxLength side sepId si ei = .ok res) :
    sumLens res ≤ maxLength := by
  obtain ⟨mid3, rfl, hb, hlen, hmem⟩ := middle_truncate_dialog_core_ok h
  have hM : (middle_segment p.tokens si ei).length =
      min ei p.tokens.length - (si + 1) := by
    simp [middle_segment, List.length_drop, List.length_take]
  simp only [sumLens, List.map_cons, List.map_nil, List.sum_cons, List.sum_nil,
    List.length_append, List.length_take, List.length_drop]
  rw [hM] at hb hlen
  simp only [middle_budget] at hb hlen
  omega

/-- A successful `middle_truncate_dialog` call keeps the total token count
within `max_length`. -/
theorem middle_truncate_dialog_ok_sum {tokenized : List DialogMessage} {maxLength : Nat}
    {side : String} {startId endId sepId : Int} {res : List DialogMessage}
    (h : (middle_truncate_dialog tokenized maxLength side startId endId sepId).result =
      .ok res) :
    sumLens res ≤ maxLength := by
  unfold middle_truncate_dialog at h
  match tokenized with
  | [] => simp at h
  | [p, o] =>
    simp only at h
    split at h
    · rename_i hover
      exact middle_truncate_dialog_core_ok_sum (by omega) h
    · rename_i hok
      simp only [Except.ok.injEq] at h
      subst h
      simp only [sumLens, List.map_cons, List.map_nil, List.sum_cons, List.sum_nil]
      omega
  | p :: o :: x :: rest => simp at h

/-- Shape of a successful `middle_truncate_prompt_core` run: tokens and mask
are reassembled as preserved prefix ++ trimmed middle ++ preserved suffix,
positionally in lockstep. -/
theorem middle_truncate_prompt_core_ok {pm : PromptMessage} {maxLength : Nat}
    {side : String} {sepId : Int} {si ei : Nat} {res : List PromptMessage}
    (h : middle_truncate_prompt_core pm maxLength side sepId si ei = .ok res) :
    ∃ (mid3 : List Int) (mask3 : List Bool),
      res = [⟨pm.tokens.take (si + 1) ++ mid3 ++ pm.tokens.drop ei,
              pm.mask.take (si + 1) ++ mask3 ++ pm.mask.drop ei⟩] ∧
      0 ≤ middle_budget maxLength pm.tokens.length 0
          (middle_segment pm.tokens si ei).length ∧
      mid3.length ≤ (middle_budget maxLength pm.tokens.length 0
          (middle_segment pm.tokens si ei).length).toNat ∧
      (pm.mask.length = pm.tokens.length → mask3.length = mid3.length) ∧
      ∀ x ∈ mid3, x ∈ middle_segment pm.tokens si ei := by
  simp only [middle_truncate_prompt_core] at h
  split at h
  · simp at h
  · rename_i hneg
    rw [Except.ok.injEq] at h
    subst h
    refine ⟨_, _, rfl, by omega, ?_, ?_, ?_⟩
    · by_cases hside : side = "middle-right" <;>
        simp only [hside, List.length_reverse, reduceIte] <;>
        rw [trimLoopPair_fst] <;>
        exact trimLoop_length_le _ _ _
    · intro hm
      have h1 : ((pm.mask.take ei).drop (si + 1)).length =
          (middle_segment pm.tokens si ei).length := by
        simp [middle_segment, List.length_drop, List.length_take, hm]
      by_cases hside : side = "middle-right" <;>
        simp only [hside, List.length_reverse, reduceIte] <;>
        exact trimLoopPair_length_eq _ _ _ _ (by simp [h1])
    · intro x hx
      by_cases hside : side = "middle-right"
      · simp only [hside, reduceIte, List.mem_reverse] at hx
        rw [trimLoopPair_fst] at hx
        have := (trimLoop_sublist sepId _ _).subset hx
        simpa using this
      · simp only [hside, reduceIte] at hx
        rw [trimLoopPair_fst] at hx
        exact (trimLoop_sublist sepId _ _).subset hx

/-- Model of the external tokenizer collaborator (spec section 6): `encode`
is `tokenizer(text, add_special_tokens=False).input_ids`, `bos_token` is
`None` or a string, and the three marker ids are the precomputed
`start_char_token_id`/`end_char_token_id`/`sep_char_token_id` attributes. -/
structure Tokenizer where
  encode : String → List Int
  eos_token : String
  bos_token : Option String
  bos_token_id : Int
  truncation_side : String
  start_char_token_id : Int
  end_char_token_id : Int
  sep_char_token_id : Int

/-- Embeds `tokenizer.bos_token or tokenizer.eos_token` (line 122): Python's
`or` falls through to `eos_token` when `bos_token` is `None` or empty. -/
def bos_or_eos_token (tok : Tokenizer) : String :=
  match tok.bos_token with
  | some b => if b = "" then tok.eos_token else b
  | none => tok.eos_token

/-- The dialogue argument of `tokenize_dialogue`: a single string or a list
of strings (the `isinstance` dispatch at lines 121-127). -/
inductive DialogueInput where
  | str (s : String)
  | list (ss : List String)

/-- `DialogMessage(is_output=m.is_output, tokens=m.tokens[::-1])` (lines 139
and 156): one message with its token order reversed. -/
def revMsg (m : DialogMessage) : DialogMessage := ⟨m.is_output, m.tokens.reverse⟩

/-- Embeds the reversal comprehension of lines 139 and 156: reverse the
message order and each message's token order. -/
def flipMessages (ms : List DialogMessage) : List DialogMessage :=
  ms.reverse.map revMsg

/-- `[sum(lengths[:i]) for i in range(len(lengths))]` (line 148). -/
def cumsumBefore (ls : List Nat) : List Nat :=
  (List.range ls.length).map fun i => (ls.take i).sum

/-- Embeds the non-middle truncation comprehension of lines 147-152: each
message keeps its first `max(max_length - cumulative_length_before, 0)`
tokens (`Nat` subtraction is the `max(·, 0)` clamp). -/
def cumulative_truncate (maxLength : Nat) (tokenized : List DialogMessage) :
    List DialogMessage :=
  (tokenized.zip (cumsumBefore (tokenized.map fun t => t.tokens.length))).map fun p =>
    ⟨p.1.is_output, p.1.tokens.take (maxLength - p.2)⟩

/-- Recursive characterization of `cumulative_truncate`, used in proofs. -/
def cumulative_truncate_rec (budget : Nat) : List DialogMessage → List DialogMessage
  | [] => []
  | m :: rest =>
    ⟨m.is_output, m.tokens.take budget⟩ ::
      cumulative_truncate_rec (budget - m.tokens.length) rest

theorem cumsumBefore_cons (x : Nat) (ls : List Nat) :
    cumsumBefore (x :: ls) = 0 :: (cumsumBefore ls).map (x + ·) := by
  simp only [cumsumBefore, List.length_cons, List.range_succ_eq_map, List.map_cons,
    List.take_zero, List.sum_nil, List.map_map]
  congr 1

theorem cumulative_truncate_eq_rec (maxLength : Nat) (ms : List DialogMessage) :
    cumulative_truncate maxLength ms = cumulative_truncate_rec maxLength ms := by
  induction ms generalizing maxLength with
  | nil => rfl
  | cons m rest ih =>
    simp only [cumulative_truncate, cumulative_truncate_rec, List.map_cons,
      cumsumBefore_cons, List.zip_cons_cons, Nat.sub_zero]
    rw [List.zip_map_right, List.map_map]
    rw [List.cons.injEq]
    refine ⟨rfl, ?_⟩
    rw [← ih (maxLength - m.tokens.length)]
    simp only [cumulative_truncate]
    apply List.map_congr_left
    intro p hp
    simp only [Function.comp, Prod.map, id]
    rw [Nat.sub_sub]

/-- The cumulative truncation never keeps more than `max_length` tokens. -/
theorem cumulative_truncate_rec_sum (budget : Nat) (ms : List DialogMessage) :
    sumLens (cumulative_truncate_rec budget ms) ≤ budget := by
  induction ms generalizing budget with
  | nil => simp [cumulative_truncate_rec, sumLens]
  | cons m rest ih =>
    simp only [cumulative_truncate_rec, sumLens, List.map_cons, List.sum_cons,
      List.length_take]
    have := ih (budget - m.tokens.length)
    simp only [sumLens] at this
    omega

theorem cumulative_truncate_sum (maxLength : Nat) (ms : List DialogMessage) :
    sumLens (cumulative_truncate maxLength ms) ≤ maxLength := by
  rw [cumulative_truncate_eq_rec]
  exact cumulative_truncate_rec_sum maxLength ms

theorem sumLens_flip (ms : List DialogMessage) : sumLens (flipMessages ms) = sumLens ms := by
  simp only [sumLens, flipMessages, List.map_map, List.map_reverse]
  rw [List.sum_reverse]
  congr 1
  apply List.map_congr_left
  intro m _
  simp [Function.comp, revMsg]

theorem sumLens_filter_le (p : DialogMessage → Bool) (ms : List DialogMessage) :
    sumLens (ms.filter p) ≤ sumLens ms := by
  induction ms with
  | nil => simp [sumLens]
  | cons m rest ih =>
    simp only [List.filter_cons]
    split
    · simp only [sumLens, List.map_cons, List.sum_cons] at *
      omega
    · simp only [sumLens, List.map_cons, List.sum_cons] at *
      omega

/-- In-place update of the last list element, as `out[-1].tokens = ...`
(line 166) does on the Python list. -/
def modifyLast (f : DialogMessage → DialogMessage) : List DialogMessage → List DialogMessage
  | [] => []
  | [m] => [f m]
  | m :: rest => m :: modifyLast f rest

theorem sumLens_cons (m : DialogMessage) (rest : List DialogMessage) :
    sumLens (m :: rest) = m.tokens.length + sumLens rest := by
  simp [sumLens]

theorem sumLens_modifyLast_dropLast (ms : List DialogMessage) (hne : ms ≠ [])
    (hall : ∀ m ∈ ms, m.tokens ≠ []) :
    sumLens (modifyLast (fun m => ⟨m.is_output, m.tokens.dropLast⟩) ms) = sumLens ms - 1 := by
  induction ms with
  | nil => exact absurd rfl hne
  | cons m rest ih =>
    match rest with
    | [] =>
      have hm : 0 < m.tokens.length := List.length_pos.mpr (hall m (by simp))
      show sumLens [⟨m.is_output, m.tokens.dropLast⟩] = _
      simp only [sumLens, List.map_cons, List.map_nil, List.sum_cons, List.sum_nil,
        List.length_dropLast]
      omega
    | r :: rest' =>
      have hr : sumLens (modifyLast (fun m => ⟨m.is_output, m.tokens.dropLast⟩) (r :: rest')) =
          sumLens (r :: rest') - 1 :=
        ih (by simp) (fun x hx => hall x (by simp [hx]))
      have hrpos : 1 ≤ sumLens (r :: rest') := by
        have h1 : 0 < r.tokens.length := List.length_pos.mpr (hall r (by simp))
        rw [sumLens_cons]
        omega
      show sumLens (m :: modifyLast (fun m => ⟨m.is_output, m.tokens.dropLast⟩) (r :: rest')) =
        sumLens (m :: r :: rest') - 1
      rw [sumLens_cons, hr, sumLens_cons m (r :: rest')]
      omega

/-- Embeds the boundary repair of lines 161-168: when the first surviving
message is an output message, shave one token if the total already equals
`max_length` (from the front when truncating left, else from the back), then
prepend a one-token non-output BOS message.  `out[0]` on an empty list
raises `IndexError`. -/
def boundary_repair (tok : Tokenizer) (maxLength : Nat) (out : List DialogMessage) :
    Except String (List DialogMessage) :=
  match out with
  | [] => .error "IndexError: list index out of range"
  | first :: rest =>
    if first.is_output then
      let repaired :=
        if sumLens (first :: rest) = maxLength then
          if tok.truncation_side = "left" then
            ⟨first.is_output, first.tokens.drop 1⟩ :: rest
          else modifyLast (fun m => ⟨m.is_output, m.tokens.dropLast⟩) (first :: rest)
        else first :: rest
      .ok (⟨false, [tok.bos_token_id]⟩ :: repaired)
    else .ok (first :: rest)

theorem boundary_repair_ok_head {tok : Tokenizer} {maxLength : Nat}
    {out res : List DialogMessage} (h : boundary_repair tok maxLength out = .ok res) :
    ∃ first rest, res = first :: rest ∧ first.is_output = false := by
  match out with
  | [] => simp [boundary_repair] at h
  | first :: rst =>
    simp only [boundary_repair] at h
    split at h
    · rw [Except.ok.injEq] at h
      exact ⟨_, _, h.symm, rfl⟩
    · rename_i hfo
      rw [Except.ok.injEq] at h
      exact ⟨first, rst, h.symm, by simpa using hfo⟩

theorem boundary_repair_ok_sum {tok : Tokenizer} {maxLength : Nat}
    {out res : List DialogMessage}
    (hsum : sumLens out ≤ maxLength)
    (hall : ∀ m ∈ out, m.tokens ≠ [])
    (h : boundary_repair tok maxLength out = .ok res) :
    sumLens res ≤ maxLength := by
  match out with
  | [] => simp [boundary_repair] at h
  | first :: rst =>
    have hfpos : 1 ≤ first.tokens.length := List.length_pos.mpr (hall first (by simp))
    have hcons := sumLens_cons first rst
    simp only [boundary_repair] at h
    split at h
    · rw [Except.ok.injEq] at h
      subst h
      rw [sumLens_cons]
      simp only [List.length_cons, List.length_nil]
      split
      · rename_i heq
        split
        · rw [sumLens_cons]
          simp only [List.length_drop]
          omega
        · rw [sumLens_modifyLast_dropLast _ (by simp) hall]
          omega
      · rename_i hne
        omega
    · rw [Except.ok.injEq] at h
      subst h
      exact hsum

/-- The common path of `tokenize_dialogue` after the input has been
normalized to a phrase list (lines 129-169): append the eos text to the last
phrase when missing (`dialogue[-1]` on an empty list raises `IndexError`),
tokenize each phrase with its role, flip for left truncation, dispatch to
middle truncation or the cumulative budget, flip back, drop empty messages,
and repair the boundary (`out[0]` on an empty list raises `IndexError`). -/
def tokenize_phrases (phrases : List String) (tok : Tokenizer) (maxLength : Nat) :
    Except String (List DialogMessage) :=
  match phrases.getLast? with
  | none => .error "IndexError: list index out of range"
  | some last =>
    let phrases := if pyEndsWith last tok.eos_token then phrases
      else phrases.dropLast ++ [last ++ tok.eos_token]
    let tokenized := phrases.enum.map fun p =>
      DialogMessage.mk (p.1 % 2 == 1) (tok.encode p.2)
    let tokenized := if tok.truncation_side = "left" then flipMessages tokenized
      else tokenized
    let truncatedE : Except String (List DialogMessage) :=
      if pyStartsWith tok.truncation_side "middle" then
        match (middle_truncate_dialog tokenized maxLength tok.truncation_side
            tok.start_char_token_id tok.end_char_token_id tok.sep_char_token_id).result with
        | .error pe => .error pe.1
        | .ok t => .ok t
      else .ok (cumulative_truncate maxLength tokenized)
    match truncatedE with
    | .error e => .error e
    | .ok truncated =>
      let truncated := if tok.truncation_side = "left" then flipMessages truncated
        else truncated
      let out := truncated.filter fun m => decide (0 < m.tokens.length)
      boundary_repair tok maxLength out

/-- Embeds `tokenize_dialogue` (lines 115-169): a string becomes the
two-phrase dialogue `[bos-or-eos, s]`, an odd-length list raises
`ValueError`, then the common phrase path runs. -/
def tokenize_dialogue (dialogue : DialogueInput) (tok : Tokenizer) (maxLength : Nat) :
    Except String (List DialogMessage) :=
  match dialogue with
  | .str s => tokenize_phrases [bos_or_eos_token tok, s] tok maxLength
  | .list ss =>
    if ss.length % 2 ≠ 0 then
      .error "Dialogue must have an even number of phrases, alternating prompt and output"
    else tokenize_phrases ss tok maxLength

/-- A successful `tokenize_phrases` run begins with a non-output message and
keeps the total token count within `max_length`. -/
theorem tokenize_phrases_ok_head_sum
    (phrases : List String) (tok : Tokenizer) (maxLength : Nat) (out : List DialogMessage)
    (h : tokenize_phrases phrases tok maxLength = .ok out) :
    (∃ first rest, out = first :: rest ∧ first.is_output = false) ∧
      sumLens out ≤ maxLength := by
  simp only [tokenize_phrases] at h
  split at h
  · simp at h
  · rename_i last hlast
    split at h
    · simp at h
    · rename_i truncated htr
      refine ⟨boundary_repair_ok_head h, boundary_repair_ok_sum ?_ ?_ h⟩
      · refine le_trans (sumLens_filter_le _ _) ?_
        have hsum2 : sumLens truncated ≤ maxLength := by
          split at htr
          · split at htr
            · simp at htr
            · rename_i t hres
              rw [Except.ok.injEq] at htr
              subst htr
              exact middle_truncate_dialog_ok_sum hres
          · rw [Except.ok.injEq] at htr
            subst htr
            exact cumulative_truncate_sum _ _
        split
        · rw [sumLens_flip]
          exact hsum2
        · exact hsum2
      · intro m hm
        rw [List.mem_filter] at hm
        exact List.length_pos.mp (of_decide_eq_true hm.2)

/-- The tokenizer of the spec's example scenario: `"hello"` encodes to
`[5,6]`, `"world"` to `[7,8]`, the eos token text is `"</s>"` with id `9`
(so `"world</s>"` encodes to `[7,8,9]`), the bos id is `0`, and truncation
is plain right-truncation. -/
def exampleTokenizer : Tokenizer where
  encode := fun s =>
    if s = "hello" then [5, 6]
    else if s = "world</s>" then [7, 8, 9]
    else if s = "world" then [7, 8]
    else []
  eos_token := "</s>"
  bos_token := some "<s>"
  bos_token_id := 0
  truncation_side := "right"
  start_char_token_id := 0
  end_char_token_id := 0
  sep_char_token_id := 0

/-- **C3**: for every even-length dialogue input and `max_length` on which
`tokenize_dialogue` returns, the returned message list begins with a
non-output message and the total length of all returned token sequences is
at most `max_length` (the one-token shave at an exact-limit total before a
BOS prepend is part of the embedded boundary repair). -/
theorem claim_c3_tokenize_dialogue_head_and_budget
    (ss : List String) (tok : Tokenizer) (maxLength : Nat) (out : List DialogMessage)
    (heven : ss.length % 2 = 0)
    (h : tokenize_dialogue (.list ss) tok maxLength = .ok out) :
    (∃ first rest, out = first :: rest ∧ first.is_output = false) ∧
      sumLens out ≤ maxLength := by
  simp only [tokenize_dialogue, heven, ne_eq, not_true_eq_false, ite_false] at h
  exact tokenize_phrases_ok_head_sum ss tok maxLength out h

/-- Witness for C3 at the concrete example scenario. -/
theorem claim_c3_witness :
    (["hello", "world"] : List String).length % 2 = 0 ∧
    ((∃ first rest, ([⟨false, [5, 6]⟩, ⟨true, [7, 8, 9]⟩] : List DialogMessage) = first :: rest ∧
        first.is_output = false) ∧
      sumLens [⟨false, [5, 6]⟩, ⟨true, [7, 8, 9]⟩] ≤ 10) :=
  ⟨by decide,
    claim_c3_tokenize_dialogue_head_and_budget ["hello", "world"] exampleTokenizer 10 _
      (by decide) (by decide)⟩

/-- **C4** counterexample: on the spec's example scenario
(`["hello", "world"]`, `hello→[5,6]`, `world→[7,8]`, eos id 9, bos id 0,
`max_length = 10`) the code returns the two messages unchanged and does NOT
prepend a BOS message, because the boundary repair at line 161 only fires
when the first surviving message IS an output message. -/
theorem claim_c4_counterexample :
    tokenize_dialogue (.list ["hello", "world"]) exampleTokenizer 10 =
      .ok [⟨false, [5, 6]⟩, ⟨true, [7, 8, 9]⟩] ∧
    tokenize_dialogue (.list ["hello", "world"]) exampleTokenizer 10 ≠
      .ok [⟨false, [0]⟩, ⟨false, [5, 6]⟩, ⟨true, [7, 8, 9]⟩] := by
  constructor
  · decide
  · decide

/-- **C4 (amended)**: on the example scenario `tokenize_dialogue` returns
exactly `[DialogMessage(False,(5,6)), DialogMessage(True,(7,8,9))]`; no BOS
message is prepended since the first message is already non-output. -/
theorem claim_c4_amended :
    tokenize_dialogue (.list ["hello", "world"]) exampleTokenizer 10 =
      .ok [⟨false, [5, 6]⟩, ⟨true, [7, 8, 9]⟩] := by decide

theorem chosen_markers_fallback (tokens : List Int) (startId endId : Int)
    (h : firstIdx startId tokens = none ∨ firstIdx endId tokens = none) :
    chosen_markers tokens startId endId = (0, tokens.length - 1) := by
  rw [chosen_markers, scanMarkers_eq]
  rcases h with h | h
  · rw [h]
  · rw [h]
    cases firstIdx startId tokens <;> rfl

theorem chosen_markers_found {tokens : List Int} {startId endId : Int} {si ei : Nat}
    (hs : firstIdx startId tokens = some si) (he : firstIdx endId tokens = some ei) :
    chosen_markers tokens startId endId = (si, ei) := by
  rw [chosen_markers, scanMarkers_eq, hs, he]

/-- One unfolding of the trimming loop when the separator is present. -/
theorem trimLoop_eq_of_found {sepId : Int} {budget : Nat} {mid : List Int} {i : Nat}
    (hlong : budget < mid.length) (hf : firstIdx sepId mid = some i) :
    trimLoop sepId budget mid = trimLoop sepId budget (mid.drop (i + 1)) := by
  conv_lhs => rw [trimLoop]
  rw [dif_neg (by omega)]
  split
  · rename_i j hj
    rw [hf] at hj
    injection hj with hj
    rw [hj]
  · rename_i hn
    rw [hf] at hn
    cases hn

/-- The trimming loop empties the segment in one step when the separator is
absent. -/
theorem trimLoop_eq_of_none {sepId : Int} {budget : Nat} {mid : List Int}
    (hlong : budget < mid.length) (hf : firstIdx sepId mid = none) :
    trimLoop sepId budget mid = [] := by
  rw [trimLoop]
  rw [dif_neg (by omega)]
  split
  · rename_i j hj
    rw [hf] at hj
    cases hj
  · rfl

/-- **C5**: when the total exceeds `max_length` and the computed middle
budget `max_length - output_len - (prompt_len - middle_segment_len)` is
negative, `middle_truncate` fails with the explicit "shorten the prompt or
output" error instead of clamping, and it raises before mutating the input
message, so the error carries the message records unchanged — on both the
`DialogMessage`-pair branch and the single-`PromptMessage` branch. -/
theorem claim_c5_negative_budget_error :
    (∀ (p o : DialogMessage) (maxLength : Nat) (side : String) (startId endId sepId : Int),
      maxLength < p.tokens.length + o.tokens.length →
      middle_budget maxLength p.tokens.length o.tokens.length
        (middle_segment p.tokens (chosen_markers p.tokens startId endId).1
          (chosen_markers p.tokens startId endId).2).length < 0 →
      (middle_truncate_dialog [p, o] maxLength side startId endId sepId).result =
        .error (budget_error_msg maxLength p.tokens.length o.tokens.length
          (middle_budget maxLength p.tokens.length o.tokens.length
            (middle_segment p.tokens (chosen_markers p.tokens startId endId).1
              (chosen_markers p.tokens startId endId).2).length), [p, o])) ∧
    (∀ (pm : PromptMessage) (maxLength : Nat) (side : String) (startId endId sepId : Int),
      maxLength < pm.tokens.length →
      middle_budget maxLength pm.tokens.length 0
        (middle_segment pm.tokens (chosen_markers pm.tokens startId endId).1
          (chosen_markers pm.tokens startId endId).2).length < 0 →
      (middle_truncate_prompt [pm] maxLength side startId endId sepId).result =
        .error (budget_error_msg maxLength pm.tokens.length 0
          (middle_budget maxLength pm.tokens.length 0
            (middle_segment pm.tokens (chosen_markers pm.tokens startId endId).1
              (chosen_markers pm.tokens startId endId).2).length), [pm])) := by
  constructor
  · intro p o maxLength side startId endId sepId hover hneg
    simp only [middle_truncate_dialog, if_pos hover]
    simp only [middle_truncate_dialog_core, if_pos hneg]
  · intro pm maxLength side startId endId sepId hover hneg
    simp only [middle_truncate_prompt, if_pos (by omega : pm.tokens.length + 0 > maxLength)]
    simp only [middle_truncate_prompt_core, if_pos hneg]

/-- Witness for C5 at concrete over-budget inputs with negative budgets. -/
theorem claim_c5_witness :
    ((middle_truncate_dialog [⟨false, [1, 2, 3]⟩, ⟨true, [4, 5, 6]⟩] 3 "middle-left"
        9 9 7).result =
      .error (budget_error_msg 3 3 3
        (middle_budget 3 3 3
          (middle_segment [1, 2, 3] (chosen_markers [1, 2, 3] 9 9).1
            (chosen_markers [1, 2, 3] 9 9).2).length),
        [⟨false, [1, 2, 3]⟩, ⟨true, [4, 5, 6]⟩])) ∧
    ((middle_truncate_prompt [⟨[1, 2, 3], [true, true, true]⟩] 1 "middle-left"
        9 9 7).result =
      .error (budget_error_msg 1 3 0
        (middle_budget 1 3 0
          (middle_segment [1, 2, 3] (chosen_markers [1, 2, 3] 9 9).1
            (chosen_markers [1, 2, 3] 9 9).2).length),
        [⟨[1, 2, 3], [true, true, true]⟩])) :=
  ⟨claim_c5_negative_budget_error.1 ⟨false, [1, 2, 3]⟩ ⟨true, [4, 5, 6]⟩ 3 "middle-left"
      9 9 7 (by decide) (by decide),
    claim_c5_negative_budget_error.2 ⟨[1, 2, 3], [true, true, true]⟩ 1 "middle-left"
      9 9 7 (by decide) (by decide)⟩

/-- **C7**: on an over-budget input whose start or end marker is absent from
the prompt tokens, `middle_truncate` does not raise for that reason: it logs
the warning and continues with the fallback indices `start_idx = 0` and
`end_idx = last_index`, so truncation proceeds over the span strictly
between the first and last prompt token — on both message branches. -/
theorem claim_c7_missing_marker_fallback :
    (∀ (p o : DialogMessage) (maxLength : Nat) (side : String) (startId endId sepId : Int),
      maxLength < p.tokens.length + o.tokens.length →
      (firstIdx startId p.tokens = none ∨ firstIdx endId p.tokens = none) →
      middle_truncate_dialog [p, o] maxLength side startId endId sepId =
        ⟨[marker_warning startId endId p.tokens],
          middle_truncate_dialog_core p o maxLength side sepId 0 (p.tokens.length - 1)⟩) ∧
    (∀ (pm : PromptMessage) (maxLength : Nat) (side : String) (startId endId sepId : Int),
      maxLength < pm.tokens.length →
      (firstIdx startId pm.tokens = none ∨ firstIdx endId pm.tokens = none) →
      middle_truncate_prompt [pm] maxLength side startId endId sepId =
        ⟨[marker_warning startId endId pm.tokens],
          middle_truncate_prompt_core pm maxLength side sepId 0 (pm.tokens.length - 1)⟩) := by
  constructor
  · intro p o maxLength side startId endId sepId hover hmiss
    simp only [middle_truncate_dialog, if_pos hover]
    rw [chosen_markers_fallback _ _ _ hmiss]
    rw [if_pos (by rw [scanMarkers_eq]; simpa using hmiss)]
  · intro pm maxLength side startId endId sepId hover hmiss
    simp only [middle_truncate_prompt, if_pos (by omega : pm.tokens.length + 0 > maxLength)]
    rw [chosen_markers_fallback _ _ _ hmiss]
    rw [if_pos (by rw [scanMarkers_eq]; simpa using hmiss)]

/-- Witness for C7 at concrete inputs whose markers are absent. -/
theorem claim_c7_witness :
    (middle_truncate_dialog [⟨false, [1, 2, 3, 4]⟩, ⟨true, [9]⟩] 4 "middle-left" 8 8 7 =
      ⟨[marker_warning 8 8 [1, 2, 3, 4]],
        middle_truncate_dialog_core ⟨false, [1, 2, 3, 4]⟩ ⟨true, [9]⟩ 4 "middle-left" 7 0 3⟩) ∧
    (middle_truncate_prompt [⟨[1, 2, 3, 4], [true, true, true, true]⟩] 3 "middle-left" 8 8 7 =
      ⟨[marker_warning 8 8 [1, 2, 3, 4]],
        middle_truncate_prompt_core ⟨[1, 2, 3, 4], [true, true, true, true]⟩ 3
          "middle-left" 7 0 3⟩) :=
  ⟨claim_c7_missing_marker_fallback.1 ⟨false, [1, 2, 3, 4]⟩ ⟨true, [9]⟩ 4 "middle-left"
      8 8 7 (by decide) (Or.inl (by decide)),
    claim_c7_missing_marker_fallback.2 ⟨[1, 2, 3, 4], [true, true, true, true]⟩ 3
      "middle-left" 8 8 7 (by decide) (Or.inl (by decide))⟩

/-- **C9**: the separator-based trimming loop terminates — every iteration
on a segment still over budget either strictly shortens it by dropping up to
and including the first separator occurrence, or, when the separator is
absent, empties it in a single step — and boundary markers at index 0 and at
the last index are valid: with a nonnegative budget the call returns
normally, no slicing error occurs. -/
theorem claim_c9_trim_loop_terminates_boundary_safe :
    (∀ (sepId : Int) (budget : Nat) (mid : List Int), budget < mid.length →
      (∃ i, firstIdx sepId mid = some i ∧ (mid.drop (i + 1)).length < mid.length ∧
          trimLoop sepId budget mid = trimLoop sepId budget (mid.drop (i + 1))) ∨
        (firstIdx sepId mid = none ∧ trimLoop sepId budget mid = [])) ∧
    (∀ (p o : DialogMessage) (maxLength : Nat) (side : String)
        (startId endId sepId : Int),
      firstIdx startId p.tokens = some 0 →
      firstIdx endId p.tokens = some (p.tokens.length - 1) →
      maxLength < p.tokens.length + o.tokens.length →
      0 ≤ middle_budget maxLength p.tokens.length o.tokens.length
        (middle_segment p.tokens 0 (p.tokens.length - 1)).length →
      ∃ res, (middle_truncate_dialog [p, o] maxLength side startId endId sepId).result =
        .ok res) := by
  constructor
  · intro sepId budget mid hlong
    cases hf : firstIdx sepId mid with
    | some i =>
      have hi := firstIdx_lt_length hf
      exact Or.inl ⟨i, rfl, by simp only [List.length_drop]; omega,
        trimLoop_eq_of_found hlong hf⟩
    | none => exact Or.inr ⟨rfl, trimLoop_eq_of_none hlong hf⟩
  · intro p o maxLength side startId endId sepId hs he hover hpos
    simp only [middle_truncate_dialog, if_pos hover]
    rw [chosen_markers_found hs he]
    simp only [middle_truncate_dialog_core]
    rw [if_neg (not_lt.mpr hpos)]
    exact ⟨_, rfl⟩

/-- Witness for C9 at a concrete over-budget segment and a concrete prompt
whose markers sit at index 0 and at the last index. -/
theorem claim_c9_witness :
    ((∃ i, firstIdx 7 [7, 1] = some i ∧ (([7, 1] : List Int).drop (i + 1)).length < 2 ∧
        trimLoop 7 0 [7, 1] = trimLoop 7 0 (([7, 1] : List Int).drop (i + 1))) ∨
      (firstIdx 7 [7, 1] = none ∧ trimLoop 7 0 [7, 1] = [])) ∧
    (∃ res, (middle_truncate_dialog [⟨false, [1, 7, 7, 2]⟩, ⟨true, [5]⟩] 4 "middle-left"
        1 2 7).result = .ok res) :=
  ⟨claim_c9_trim_loop_terminates_boundary_safe.1 7 0 [7, 1] (by decide),
    claim_c9_trim_loop_terminates_boundary_safe.2 ⟨false, [1, 7, 7, 2]⟩ ⟨true, [5]⟩ 4
      "middle-left" 1 2 7 (by decide) (by decide) (by decide) (by decide)⟩

theorem reverse_take_eq (l : List Int) (b : Nat) :
    l.reverse.take b = (l.drop (l.length - b)).reverse := by
  have h := List.rtake_eq_reverse_take_reverse (l := l) (n := b)
  rw [List.rtake] at h
  rw [h, List.reverse_reverse]

/-- Follows the spec's words for the left-truncation round-trip: one message
keeping only its rightmost tokens within the budget (overflow dropped from
the left). -/
def keep_rightmost (budget : Nat) (m : DialogMessage) : DialogMessage :=
  ⟨m.is_output, m.tokens.drop (m.tokens.length - budget)⟩

/-- Follows the spec's words: walk the messages starting from the sequence
end (the list passed here is already reversed), each message keeping its
rightmost tokens within the remaining budget, the budget decreasing by each
message's original length. -/
def spec_left_truncate_walk (budget : Nat) : List DialogMessage → List DialogMessage
  | [] => []
  | m :: rest =>
    keep_rightmost budget m :: spec_left_truncate_walk (budget - m.tokens.length) rest

/-- Follows the spec's words for C8: truncating directly from the left,
keeping the rightmost `max_length` tokens with overflow dropped
message-by-message from the left. -/
def spec_left_truncate (maxLength : Nat) (ms : List DialogMessage) : List DialogMessage :=
  (spec_left_truncate_walk maxLength ms.reverse).reverse

theorem revMsg_revMsg (m : DialogMessage) : revMsg (revMsg m) = m := by
  simp [revMsg]

theorem rec_map_rev (b : Nat) (l : List DialogMessage) :
    cumulative_truncate_rec b (l.map revMsg) = (spec_left_truncate_walk b l).map revMsg := by
  induction l generalizing b with
  | nil => rfl
  | cons m rest ih =>
    simp only [List.map_cons, cumulative_truncate_rec, spec_left_truncate_walk]
    rw [List.cons.injEq]
    constructor
    · show (⟨m.is_output, m.tokens.reverse.take b⟩ : DialogMessage) =
        revMsg (keep_rightmost b m)
      simp only [revMsg, keep_rightmost]
      rw [reverse_take_eq]
    · show cumulative_truncate_rec (b - (revMsg m).tokens.length) (rest.map revMsg) = _
      simp only [revMsg, List.length_reverse]
      exact ih (b - m.tokens.length)

theorem flip_map_rev (X : List DialogMessage) : flipMessages (X.map revMsg) = X.reverse := by
  simp only [flipMessages, ← List.map_reverse, List.map_map]
  rw [show revMsg ∘ revMsg = id from funext revMsg_revMsg, List.map_id]

/-- **C8**: reversing the message order and each message's token order,
applying the cumulative right-truncation, and reversing back (the path taken
when `truncation_side` is `"left"`, lines 137-156) equals truncating the
original sequence directly from the left: keeping the rightmost `max_length`
tokens with overflow dropped message-by-message from the left. -/
theorem claim_c8_left_truncation_via_reversal (maxLength : Nat) (ms : List DialogMessage) :
    flipMessages (cumulative_truncate maxLength (flipMessages ms)) =
      spec_left_truncate maxLength ms := by
  rw [cumulative_truncate_eq_rec]
  have h1 : flipMessages ms = ms.reverse.map revMsg := rfl
  rw [h1, rec_map_rev, spec_left_truncate, flip_map_rev]

theorem firstIdx_take_self {target : Int} {l : List Int} {i : Nat}
    (h : firstIdx target l = some i) : firstIdx target (l.take (i + 1)) = some i := by
  obtain ⟨hi, hget⟩ := firstIdx_getElem h
  have hdec : l.take (i + 1) = l.take i ++ [target] := by
    rw [← List.take_concat_get l i hi, hget]
    simp [List.concat_eq_append]
  rw [hdec, firstIdx_append, firstIdx_of_not_mem (firstIdx_not_mem_take h)]
  have hlen : (l.take i).length = i := by rw [List.length_take]; omega
  simp [firstIdx, hlen]

/-- A successful `middle_truncate_dialog` run whose prompt contains both
markers keeps the prompt no longer than before, preserves the prefix up to
and including the first start-marker occurrence, and preserves the suffix
from the first end-marker occurrence onward. -/
theorem middle_truncate_dialog_preserves :
    ∀ (p o : DialogMessage) (maxLength : Nat) (side : String) (startId endId sepId : Int)
      (si ei : Nat) (res : List DialogMessage),
      firstIdx startId p.tokens = some si →
      firstIdx endId p.tokens = some ei →
      (middle_truncate_dialog [p, o] maxLength side startId endId sepId).result = .ok res →
      ∃ p', res = [p', o] ∧
        p'.tokens.length ≤ p.tokens.length ∧
        firstIdx startId p'.tokens = some si ∧
        p'.tokens.take (si + 1) = p.tokens.take (si + 1) ∧
        ∃ ei', firstIdx endId p'.tokens = some ei' ∧
          p'.tokens.drop ei' = p.tokens.drop ei := by
  intro p o maxLength side startId endId sepId si ei res hs he hok
  simp only [middle_truncate_dialog] at hok
  split at hok
  · rename_i hover
    rw [chosen_markers_found hs he] at hok
    replace hok : middle_truncate_dialog_core p o maxLength side sepId si ei = .ok res := hok
    obtain ⟨mid3, rfl, hb, hlen, hmem⟩ := middle_truncate_dialog_core_ok hok
    have hsi := firstIdx_lt_length hs
    have hei := firstIdx_lt_length he
    have hMei : (middle_segment p.tokens si ei).length = ei - (si + 1) := by
      simp only [middle_segment, List.length_take, List.length_drop]
      omega
    have hei2 : si + 2 ≤ ei := by
      rw [hMei] at hb
      simp only [middle_budget] at hb
      omega
    have hA : (p.tokens.take (si + 1)).length = si + 1 := by
      rw [List.length_take]; omega
    have hnotmem3 : endId ∉ mid3 := by
      intro hx
      have h1 := hmem endId hx
      have h2 : endId ∈ p.tokens.take ei := List.mem_of_mem_drop (by
        simpa [middle_segment] using h1)
      exact firstIdx_not_mem_take he h2
    have hnotmemA : endId ∉ p.tokens.take (si + 1) := by
      intro hx
      have htt := List.take_take (si + 1) ei p.tokens
      rw [min_eq_left (by omega)] at htt
      rw [← htt] at hx
      exact firstIdx_not_mem_take he (List.mem_of_mem_take hx)
    have hB : firstIdx endId (p.tokens.drop ei) = some 0 := by
      rw [List.drop_eq_getElem_cons hei]
      obtain ⟨_, hget⟩ := firstIdx_getElem he
      simp [firstIdx, hget]
    refine ⟨_, rfl, ?_, ?_, ?_, ⟨si + 1 + mid3.length, ?_, ?_⟩⟩
    · simp only [List.length_append, List.length_take, List.length_drop]
      rw [hMei] at hlen
      simp only [middle_budget] at hb hlen
      omega
    · rw [List.append_assoc, firstIdx_append, firstIdx_take_self hs]
    · have ht := List.take_left (p.tokens.take (si + 1)) (mid3 ++ p.tokens.drop ei)
      rw [hA] at ht
      rw [List.append_assoc]
      exact ht
    · simp only [List.append_assoc, firstIdx_append, firstIdx_of_not_mem hnotmemA,
        firstIdx_of_not_mem hnotmem3, hB, Option.map_some', hA]
      congr 1
      omega
    · have hlen2 : (p.tokens.take (si + 1) ++ mid3).length = si + 1 + mid3.length := by
        rw [List.length_append, hA]
      have hd := List.drop_left (p.tokens.take (si + 1) ++ mid3) (p.tokens.drop ei)
      rw [hlen2] at hd
      exact hd
  · rename_i hin
    replace hok : (Except.ok [p, o] : Except (String × List DialogMessage) (List DialogMessage)) = .ok res := hok
    rw [Except.ok.injEq] at hok
    subst hok
    exact ⟨p, rfl, le_refl _, hs, rfl, ei, he, rfl⟩

/-- The `PromptMessage` analogue of `middle_truncate_dialog_preserves`, with
the mask preserved positionally in lockstep. -/
theorem middle_truncate_prompt_preserves :
    ∀ (pm : PromptMessage) (maxLength : Nat) (side : String) (startId endId sepId : Int)
      (si ei : Nat) (res : List PromptMessage),
      pm.mask.length = pm.tokens.length →
      firstIdx startId pm.tokens = some si →
      firstIdx endId pm.tokens = some ei →
      (middle_truncate_prompt [pm] maxLength side startId endId sepId).result = .ok res →
      ∃ pm', res = [pm'] ∧
        pm'.tokens.length ≤ pm.tokens.length ∧
        pm'.mask.length = pm'.tokens.length ∧
        firstIdx startId pm'.tokens = some si ∧
        pm'.tokens.take (si + 1) = pm.tokens.take (si + 1) ∧
        pm'.mask.take (si + 1) = pm.mask.take (si + 1) ∧
        ∃ ei', firstIdx endId pm'.tokens = some ei' ∧
          pm'.tokens.drop ei' = pm.tokens.drop ei ∧
          pm'.mask.drop ei' = pm.mask.drop ei := by
  intro pm maxLength side startId endId sepId si ei res hm hs he hok
  simp only [middle_truncate_prompt] at hok
  split at hok
  · rename_i hover
    rw [chosen_markers_found hs he] at hok
    replace hok : middle_truncate_prompt_core pm maxLength side sepId si ei = .ok res := hok
    obtain ⟨mid3, mask3, rfl, hb, hlen, hmask, hmem⟩ := middle_truncate_prompt_core_ok hok
    replace hmask : mask3.length = mid3.length := hmask hm
    have hsi := firstIdx_lt_length hs
    have hei := firstIdx_lt_length he
    have hMei : (middle_segment pm.tokens si ei).length = ei - (si + 1) := by
      simp only [middle_segment, List.length_take, List.length_drop]
      omega
    have hei2 : si + 2 ≤ ei := by
      rw [hMei] at hb
      simp only [middle_budget] at hb
      omega
    have hA : (pm.tokens.take (si + 1)).length = si + 1 := by
      rw [List.length_take]; omega
    have hAm : (pm.mask.take (si + 1)).length = si + 1 := by
      rw [List.length_take]; omega
    have hnotmem3 : endId ∉ mid3 := by
      intro hx
      have h1 := hmem endId hx
      have h2 : endId ∈ pm.tokens.take ei := List.mem_of_mem_drop (by
        simpa [middle_segment] using h1)
      exact firstIdx_not_mem_take he h2
    have hnotmemA : endId ∉ pm.tokens.take (si + 1) := by
      intro hx
      have htt := List.take_take (si + 1) ei pm.tokens
      rw [min_eq_left (by omega)] at htt
      rw [← htt] at hx
      exact firstIdx_not_mem_take he (List.mem_of_mem_take hx)
    have hB : firstIdx endId (pm.tokens.drop ei) = some 0 := by
      rw [List.drop_eq_getElem_cons hei]
      obtain ⟨_, hget⟩ := firstIdx_getElem he
      simp [firstIdx, hget]
    refine ⟨_, rfl, ?_, ?_, ?_, ?_, ?_, ⟨si + 1 + mid3.length, ?_, ?_, ?_⟩⟩
    · simp only [List.length_append, List.length_take, List.length_drop]
      rw [hMei] at hlen
      simp only [middle_budget] at hb hlen
      omega
    · simp only [List.length_append, List.length_take, List.length_drop]
      omega
    · rw [List.append_assoc, firstIdx_append, firstIdx_take_self hs]
    · have ht := List.take_left (pm.tokens.take (si + 1)) (mid3 ++ pm.tokens.drop ei)
      rw [hA] at ht
      rw [List.append_assoc]
      exact ht
    · show (pm.mask.take (si + 1) ++ mask3 ++ pm.mask.drop ei).take (si + 1) =
        pm.mask.take (si + 1)
      rw [List.append_assoc]
      have ht := List.take_left (pm.mask.take (si + 1)) (mask3 ++ pm.mask.drop ei)
      rw [hAm] at ht
      exact ht
    · simp only [List.append_assoc, firstIdx_append, firstIdx_of_not_mem hnotmemA,
        firstIdx_of_not_mem hnotmem3, hB, Option.map_some', hA]
      congr 1
      omega
    · have hlen2 : (pm.tokens.take (si + 1) ++ mid3).length = si + 1 + mid3.length := by
        rw [List.length_append, hA]
      have hd := List.drop_left (pm.tokens.take (si + 1) ++ mid3) (pm.tokens.drop ei)
      rw [hlen2] at hd
      exact hd
    · show (pm.mask.take (si + 1) ++ mask3 ++ pm.mask.drop ei).drop (si + 1 + mid3.length) =
        pm.mask.drop ei
      have hlen2 : (pm.mask.take (si + 1) ++ mask3).length = si + 1 + mid3.length := by
        rw [List.length_append, hAm, hmask]
      have hd := List.drop_left (pm.mask.take (si + 1) ++ mask3) (pm.mask.drop ei)
      rw [hlen2] at hd
      exact hd
  · rename_i hin
    replace hok : (Except.ok [pm] : Except (String × List PromptMessage) (List PromptMessage)) = .ok res := hok
    rw [Except.ok.injEq] at hok
    subst hok
    exact ⟨pm, rfl, le_refl _, hm, hs, rfl, rfl, ei, he, rfl, rfl⟩

/-- **C1**: whenever `middle_truncate` returns without raising on a
`[prompt, output]` `DialogMessage` pair or a single `[PromptMessage]`, and
both the start marker and the end marker occur in the prompt tokens, the
resulting prompt token sequence is no longer than the original, its prefix
up to and including the first start-marker occurrence equals the original
prefix, and its suffix from the first end-marker occurrence onward equals
the original suffix; the same holds positionally for the mask of a
`PromptMessage`. -/
theorem claim_c1_middle_truncate_preserves_prefix_suffix :
    (∀ (p o : DialogMessage) (maxLength : Nat) (side : String) (startId endId sepId : Int)
      (si ei : Nat) (res : List DialogMessage),
      firstIdx startId p.tokens = some si →
      firstIdx endId p.tokens = some ei →
      (middle_truncate_dialog [p, o] maxLength side startId endId sepId).result = .ok res →
      ∃ p', res = [p', o] ∧
        p'.tokens.length ≤ p.tokens.length ∧
        firstIdx startId p'.tokens = some si ∧
        p'.tokens.take (si + 1) = p.tokens.take (si + 1) ∧
        ∃ ei', firstIdx endId p'.tokens = some ei' ∧
          p'.tokens.drop ei' = p.tokens.drop ei) ∧
    (∀ (pm : PromptMessage) (maxLength : Nat) (side : String) (startId endId sepId : Int)
      (si ei : Nat) (res : List PromptMessage),
      pm.mask.length = pm.tokens.length →
      firstIdx startId pm.tokens = some si →
      firstIdx endId pm.tokens = some ei →
      (middle_truncate_prompt [pm] maxLength side startId endId sepId).result = .ok res →
      ∃ pm', res = [pm'] ∧
        pm'.tokens.length ≤ pm.tokens.length ∧
        pm'.mask.length = pm'.tokens.length ∧
        firstIdx startId pm'.tokens = some si ∧
        pm'.tokens.take (si + 1) = pm.tokens.take (si + 1) ∧
        pm'.mask.take (si + 1) = pm.mask.take (si + 1) ∧
        ∃ ei', firstIdx endId pm'.tokens = some ei' ∧
          pm'.tokens.drop ei' = pm.tokens.drop ei ∧
          pm'.mask.drop ei' = pm.mask.drop ei) :=
  ⟨middle_truncate_dialog_preserves, middle_truncate_prompt_preserves⟩

/-- Witness for C1 at concrete within-budget inputs containing both markers. -/
theorem claim_c1_witness :
    (∃ p', ([⟨false, [1, 2]⟩, ⟨true, []⟩] : List DialogMessage) = [p', ⟨true, []⟩] ∧
      p'.tokens.length ≤ ([1, 2] : List Int).length ∧
      firstIdx 1 p'.tokens = some 0 ∧
      p'.tokens.take 1 = ([1, 2] : List Int).take 1 ∧
      ∃ ei', firstIdx 2 p'.tokens = some ei' ∧
        p'.tokens.drop ei' = ([1, 2] : List Int).drop 1) ∧
    (∃ pm', ([⟨[1, 2], [true, true]⟩] : List PromptMessage) = [pm'] ∧
      pm'.tokens.length ≤ ([1, 2] : List Int).length ∧
      pm'.mask.length = pm'.tokens.length ∧
      firstIdx 1 pm'.tokens = some 0 ∧
      pm'.tokens.take 1 = ([1, 2] : List Int).take 1 ∧
      pm'.mask.take 1 = ([true, true] : List Bool).take 1 ∧
      ∃ ei', firstIdx 2 pm'.tokens = some ei' ∧
        pm'.tokens.drop ei' = ([1, 2] : List Int).drop 1 ∧
        pm'.mask.drop ei' = ([true, true] : List Bool).drop 1) :=
  ⟨claim_c1_middle_truncate_preserves_prefix_suffix.1 ⟨false, [1, 2]⟩ ⟨true, []⟩ 10
      "middle-left" 1 2 7 0 1 [⟨false, [1, 2]⟩, ⟨true, []⟩]
      (by decide) (by decide) (by decide),
    claim_c1_middle_truncate_preserves_prefix_suffix.2 ⟨[1, 2], [true, true]⟩ 10
      "middle-left" 1 2 7 0 1 [⟨[1, 2], [true, true]⟩]
      (by decide) (by decide) (by decide) (by decide)⟩

/-- The per-example record held by the dialogue stores:
`{input_ids, attention_mask, labels}`. -/
structure DialogRecord where
  input_ids : List Int
  attention_mask : List Bool
  labels : List Int
deriving DecidableEq, Repr

/-- Embeds the record construction of `DialogStore.__init__` (lines
176-183) for one dialog: `attention_mask = torch.ones(total, bool)`,
`input_ids` the concatenated message tokens, and `labels[i] = input_ids[i]`
for tokens of output messages, else `-100` (the CrossEntropyLoss ignore
index, line 178). -/
def dialog_store_record (d : List DialogMessage) : DialogRecord where
  input_ids := (d.map fun m => m.tokens).flatten
  attention_mask := List.replicate ((d.map fun m => m.tokens.length).sum) true
  labels := (d.map fun m => m.tokens.map fun t => if m.is_output then t else -100).flatten

/-- `self.history` of `DialogStore.__init__` (lines 182-184): one record per
pre-tokenized dialog. -/
def dialog_store_history (dialogs : List (List DialogMessage)) : List DialogRecord :=
  dialogs.map dialog_store_record

/-- Embeds `DialogStreamStore.__getitem__` (lines 217-225): fetch the raw
sample at the index, tokenize it on access with the shared tokenizer
configuration and `seq_length`, and build the same record fields as the
eager store (lines 220-224). -/
def dialog_stream_getitem (samples : List DialogueInput) (tok : Tokenizer)
    (seq_length : Nat) (index : Nat) : Except String DialogRecord :=
  match samples[index]? with
  | none => .error "IndexError: list index out of range"
  | some sample =>
    match tokenize_dialogue sample tok seq_length with
    | .error e => .error e
    | .ok dialog =>
      .ok { input_ids := (dialog.map fun m => m.tokens).flatten,
            attention_mask :=
              List.replicate ((dialog.map fun m => m.tokens.length).sum) true,
            labels := (dialog.map fun m => m.tokens.map fun t =>
              if m.is_output then t else -100).flatten }

/-- **C6**: for every raw dialogue list, index and shared tokenizer
configuration, indexing the streaming store (which tokenizes on access)
yields exactly the record at the same index of an eager store built from
the eagerly tokenized dialogues: identical `input_ids`, `attention_mask`
and `labels`. -/
theorem claim_c6_stream_eager_equivalent
    (samples : List DialogueInput) (tok : Tokenizer) (seq_length : Nat)
    (ds : List (List DialogMessage)) (i : Nat) (s : DialogueInput) (d : List DialogMessage)
    (hmap : ∀ (j : Nat), ds[j]? = (samples[j]?).bind fun s' =>
      (tokenize_dialogue s' tok seq_length).toOption)
    (hs : samples[i]? = some s)
    (hd : tokenize_dialogue s tok seq_length = .ok d) :
    ∃ r, dialog_stream_getitem samples tok seq_length i = .ok r ∧
      (dialog_store_history ds)[i]? = some r := by
  refine ⟨dialog_store_record d, ?_, ?_⟩
  · simp only [dialog_stream_getitem, hs, hd]
    rfl
  · rw [dialog_store_history, List.getElem?_map, hmap i, hs]
    simp [hd, Except.toOption]

/-- Witness for C6 at the concrete example scenario. -/
theorem claim_c6_witness :
    ∃ r, dialog_stream_getitem [.list ["hello", "world"]] exampleTokenizer 10 0 = .ok r ∧
      (dialog_store_history [[⟨false, [5, 6]⟩, ⟨true, [7, 8, 9]⟩]])[0]? = some r :=
  claim_c6_stream_eager_equivalent [.list ["hello", "world"]] exampleTokenizer 10
    [[⟨false, [5, 6]⟩, ⟨true, [7, 8, 9]⟩]] 0 (.list ["hello", "world"])
    [⟨false, [5, 6]⟩, ⟨true, [7, 8, 9]⟩]
    (fun j => by cases j <;> rfl) rfl (by decide)

/-- Model of the external `DataCollatorWithPadding(tokenizer)` collaborator
(spec section 6, the tokenizer's "padding operation usable for batch
collation"): every sequence passed as `input_ids` is padded to the batch
maximum length with the tokenizer's pad token id. -/
def hf_pad_batch (pad_token_id : Int) (seqs : List (List Int)) : List (List Int) :=
  let maxLen := (seqs.map List.length).foldr max 0
  seqs.map fun s => s ++ List.replicate (maxLen - s.length) pad_token_id

/-- Embeds the `labels` line of `collate_fn` in `DialogStore.create_loader`
(line 193) and `DialogStreamStore.create_loader` (line 234): each example's
stored `labels` are handed to the padding collator under the `input_ids`
key, so they are padded with the tokenizer's pad token id. -/
def dialog_collate_labels (pad_token_id : Int) (elems : List DialogRecord) :
    List (List Int) :=
  hf_pad_batch pad_token_id (elems.map fun e => e.labels)

/-- **C2** fails on the code: collating two records whose labels have
lengths 1 and 2 with pad token id `0` puts `0` — the pad id, not the `-100`
ignore sentinel — in the padded position of the shorter example's labels
row. -/
theorem claim_c2_labels_padded_with_pad_token_id :
    dialog_collate_labels 0
      [{ input_ids := [3], attention_mask := [true], labels := [-100] },
       { input_ids := [4, 5], attention_mask := [true, true], labels := [-100, 5] }] =
      [[-100, 0], [-100, 5]] ∧ (0 : Int) ≠ -100 := by
  constructor
  · rfl
  · decide

/-- Python `dict.pop(key)` on a dict modelled as a partial map: the popped
value and the dict with the key removed. -/
def dict_pop {V : Type} (key : String) (d : String → Option V) :
    Option V × (String → Option V) :=
  (d key, fun k => if k = key then none else d k)

/-- Embeds `prompts = [x.pop("prompt") for x in metadata]` of
`PromptPipeline.__init__` (lines 266-268): pop the required `"prompt"` key
from every caller-supplied dict, left to right, failing with `KeyError`
when a dict lacks the key. The second component returned is the caller's
dicts as they remain after construction: the rest of `__init__` (lines
272-297) only reads them — the `{**metadata}` merge at line 295 builds
fresh dicts — so no later statement mutates them. -/
def prompt_pipeline_pop_prompts {V : Type} :
    List (String → Option V) → Except String (List V × List (String → Option V))
  | [] => .ok ([], [])
  | d :: rest =>
    match (dict_pop "prompt" d).1 with
    | none => .error "KeyError: prompt"
    | some v =>
      match prompt_pipeline_pop_prompts rest with
      | .error e => .error e
      | .ok (vs, ds) => .ok (v :: vs, (dict_pop "prompt" d).2 :: ds)

/-- **C10**: constructing a `PromptPipeline` from a list of dicts pops the
`"prompt"` key from each caller-supplied dict in place: after construction
the caller's dicts no longer contain that key, while every other metadata
key keeps its value. -/
theorem claim_c10_prompt_pipeline_pops_prompt {V : Type}
    (dicts : List (String → Option V))
    (hall : ∀ d ∈ dicts, (d "prompt").isSome) :
    ∃ vs after, prompt_pipeline_pop_prompts dicts = .ok (vs, after) ∧
      List.Forall₂ (fun (d d' : String → Option V) =>
        d' "prompt" = none ∧ ∀ k, k ≠ "prompt" → d' k = d k) dicts after := by
  induction dicts with
  | nil => exact ⟨[], [], rfl, List.Forall₂.nil⟩
  | cons d rest ih =>
    obtain ⟨v, hv⟩ := Option.isSome_iff_exists.mp (hall d (by simp))
    obtain ⟨vs, after, hok, hrel⟩ := ih (fun x hx => hall x (by simp [hx]))
    refine ⟨v :: vs, (dict_pop "prompt" d).2 :: after, ?_, ?_⟩
    · simp only [prompt_pipeline_pop_prompts, dict_pop, hv, hok]
    · exact List.Forall₂.cons ⟨by simp [dict_pop], fun k hk => by simp [dict_pop, hk]⟩ hrel

/-- Witness for C10 at a concrete one-dict list carrying an extra metadata
key. -/
theorem claim_c10_witness :
    ∃ vs after, prompt_pipeline_pop_prompts
        [fun k => if k = "prompt" then some 1 else if k = "x" then some 2 else none] =
      .ok (vs, after) ∧
      List.Forall₂ (fun (d d' : String → Option Nat) =>
        d' "prompt" = none ∧ ∀ k, k ≠ "prompt" → d' k = d k)
        [fun k => if k = "prompt" then some 1 else if k = "x" then some 2 else none] after :=
  claim_c10_prompt_pipeline_pops_prompt _ (by
    intro d hd
    rw [List.mem_singleton] at hd
    subst hd
    rfl)
